import Mathlib

/-!
# The bounded metric registry of `metrics/impl/default_registry_impl.go`

A shallow embedding of `MetricRegistryImpl` (its three fields, `GetMetrics`,
`LastUpdateTime`, `GetFastCompass`, `NewMetricRegistry`) as pure functions that
pass the registry explicitly, followed by the properties proved about it.

Conventions of the embedding

* `sync.Map` and the builtin `map[string]*T` are finite maps with unique keys:
  a list of key/value pairs whose keys are pairwise distinct. `Range` visits the
  pairs in list order (Go leaves the order unspecified).
* The only writer of `metricsMap` is the `LoadOrStore` of `GetFastCompass`, which
  stores a `string` key and a `*MetricNameToMetricEntry` whose `Metric` is a
  `FastCompass`. The map is therefore typed with these types and the dynamic type
  assertions `.(string)`, `.(*metrics.MetricNameToMetricEntry)` and
  `.(metrics.FastCompass)` of the source are the identity. The namespace `Dyn`
  embeds the same code with the dynamic types kept and the assertions able to
  panic; the typed registry is shown to be its image on every reachable state.
* `metricsCount` is an `int32` that is only ever incremented by one per stored
  entry; it is modelled as an unbounded integer, so the development describes
  registries holding fewer than `2^31` entries (the counter cannot wrap before).
  `maxMetricCount` is a Go `int`; it is only compared, never computed with.
* Pointer identity of instruments: every instrument built by `newFastCompass`
  carries the serial number of its construction, so that two instruments are equal
  in the model exactly when they are the same object. The registry carries the
  number of instruments built so far in the ghost field `built`.
* Concurrent calls of `GetFastCompass` are interleavings of the atomic accesses to
  the shared registry (`Goroutine`, `Pool`).
-/

namespace MetricRegistry

/-- Go's `time.Duration` (nanoseconds). -/
abbrev Duration := Int

/-- The values of the interface `metrics.FastCompass` that the registry handles:
the shared no-op instrument returned by `GetNopFastCompass()` and the instruments
built by `newFastCompass(interval)`. A built instrument is identified by the serial
number `id` of its construction. -/
inductive FastCompass where
  | nop : FastCompass
  | real (id : Nat) (interval : Duration) : FastCompass
  deriving DecidableEq, Repr

/-- Whether an instrument is the shared no-op instrument. -/
def FastCompass.isNop : FastCompass → Bool
  | FastCompass.nop => true
  | FastCompass.real _ _ => false

/-- The type `metrics.MetricName` (declared outside this file) seen through what
the registry uses of it: the string returned by its method `HashKey()` and its
field `Level`. A value stands for a non-nil `*metrics.MetricName`. -/
structure MetricName where
  hashKey : String
  Level : Int
  deriving DecidableEq, Repr

/-- The method `name.HashKey()`. -/
def MetricName.HashKey (name : MetricName) : String := name.hashKey

/-- The struct `metrics.MetricNameToMetricEntry{MetricName, Metric}`. -/
structure MetricNameToMetricEntry where
  MetricName : MetricName
  Metric : FastCompass
  deriving DecidableEq, Repr

/-- The keys of a list of key/value pairs. -/
def keysOf {V : Type} (l : List (String × V)) : List String := l.map Prod.fst

/-- Lookup of a key in a list of key/value pairs (first match). -/
def lookupIn {V : Type} (key : String) : List (String × V) → Option V
  | [] => none
  | (k, v) :: t => if k = key then some v else lookupIn key t

/-- A `sync.Map` holding registry entries under string keys. -/
structure SyncMap where
  entries : List (String × MetricNameToMetricEntry)
  nodup : (keysOf entries).Nodup

/-- The zero value `sync.Map{}`. -/
def SyncMap.empty : SyncMap := ⟨[], List.nodup_nil⟩

/-- The method `m.Load(key)`: the stored value and whether the key is present,
as an option. -/
def SyncMap.Load (m : SyncMap) (key : String) : Option MetricNameToMetricEntry :=
  lookupIn key m.entries

/-- The store half of `LoadOrStore`: the pair is added when the key is absent; a
key that is present keeps its value. -/
def SyncMap.store (m : SyncMap) (key : String) (value : MetricNameToMetricEntry) : SyncMap :=
  if h : key ∈ keysOf m.entries then m
  else ⟨(key, value) :: m.entries, List.nodup_cons.mpr ⟨h, m.nodup⟩⟩

/-- The method `m.LoadOrStore(key, value)`: when the key is present the stored
value is returned with `loaded = true` and the map is unchanged; otherwise `value`
is stored and returned with `loaded = false`. -/
def SyncMap.LoadOrStore (m : SyncMap) (key : String) (value : MetricNameToMetricEntry) :
    MetricNameToMetricEntry × Bool × SyncMap :=
  match m.Load key with
  | some actual => (actual, true, m)
  | none => (value, false, m.store key value)

/-- The loop of `Range`: the callback receives its captured state and one
key/value pair; it returns the new captured state and whether to go on. -/
def rangeLoop {V σ : Type} (f : σ → String → V → σ × Bool) : σ → List (String × V) → σ
  | s, [] => s
  | s, (k, v) :: t => if (f s k v).2 then rangeLoop f (f s k v).1 t else (f s k v).1

/-- The method `m.Range(f)`, with the variables captured by `f` passed as `init`. -/
def SyncMap.Range {σ : Type} (m : SyncMap)
    (f : σ → String → MetricNameToMetricEntry → σ × Bool) (init : σ) : σ :=
  rangeLoop f init m.entries

/-- The builtin `map[string]*metrics.MetricNameToMetricEntry`. -/
structure GoMap where
  entries : List (String × MetricNameToMetricEntry)
  nodup : (keysOf entries).Nodup

/-- The map made by `make(map[string]*metrics.MetricNameToMetricEntry, hint)`; the
capacity hint does not change the value (a negative hint is allowed for maps). -/
def GoMap.make (_hint : Int) : GoMap := ⟨[], List.nodup_nil⟩

/-- The index expression `m[key]` with the comma-ok result as an option. -/
def GoMap.get (m : GoMap) (key : String) : Option MetricNameToMetricEntry :=
  lookupIn key m.entries

/-- The builtin `len(m)`. -/
def GoMap.len (m : GoMap) : Nat := m.entries.length

/-- The assignment `m[key] = value`: any previous pair of the key is replaced. -/
def GoMap.set (m : GoMap) (key : String) (value : MetricNameToMetricEntry) : GoMap :=
  ⟨(key, value) :: m.entries.filter (fun p => decide (p.1 ≠ key)),
    List.nodup_cons.mpr
      ⟨by simp [keysOf, List.mem_filter],
        m.nodup.sublist (List.Sublist.map Prod.fst (List.filter_sublist m.entries))⟩⟩

/-- The struct `MetricRegistryImpl`. The fields `metricsMap`, `metricsCount` and
`maxMetricCount` are those of the source; `built` is a ghost field, the number of
instruments `newFastCompass` has built so far for this registry. -/
structure MetricRegistryImpl where
  metricsMap : SyncMap
  metricsCount : Int
  maxMetricCount : Int
  built : Nat

/-- The function `GetNopFastCompass()`: the shared no-op instrument. -/
def GetNopFastCompass : FastCompass := FastCompass.nop

/-- The function `newFastCompass(interval)`: a new instrument, the `serial`-th one
built. -/
def newFastCompass (serial : Nat) (interval : Duration) : FastCompass :=
  FastCompass.real serial interval

/-- The function `atomic.AddInt32(addr, delta)` on the unbounded counter. -/
def AddInt32 (value delta : Int) : Int := value + delta

/-- The method `GetMetrics`: the result map and the registry afterwards. -/
def GetMetrics (mri : MetricRegistryImpl) : GoMap × MetricRegistryImpl :=
  (mri.metricsMap.Range (fun result key value => (result.set key value, true))
      (GoMap.make mri.metricsCount),
    mri)

/-- The method `LastUpdateTime`: the result and the registry afterwards.
`lastUpdateTime` is what `entry.Metric.LastUpdateTime()` reports for each
instrument during the call. -/
def LastUpdateTime (lastUpdateTime : FastCompass → Int) (mri : MetricRegistryImpl) :
    Int × MetricRegistryImpl :=
  (mri.metricsMap.Range
      (fun result _ entry =>
        (if result < lastUpdateTime entry.Metric then lastUpdateTime entry.Metric else result,
          true))
      (0 : Int),
    mri)

/-- The method `GetFastCompass`: the returned instrument and the registry
afterwards. `GetLevelInterval` is `config.GetMetricConfig().GetLevelInterval`. -/
def GetFastCompass (GetLevelInterval : Int → Duration) (mri : MetricRegistryImpl)
    (name : MetricName) : FastCompass × MetricRegistryImpl :=
  match mri.metricsMap.Load name.HashKey with
  | some result =>
    -- fast path
    (result.Metric, mri)
  | none =>
    -- slow path
    let underLimit : Bool := decide (mri.metricsCount < mri.maxMetricCount)
    let newFastCmps : FastCompass :=
      if underLimit then newFastCompass mri.built (GetLevelInterval name.Level)
      else GetNopFastCompass
    let built : Nat := if underLimit then mri.built + 1 else mri.built
    let stored := mri.metricsMap.LoadOrStore name.HashKey ⟨name, newFastCmps⟩
    let metricsCount : Int :=
      if stored.2.1 then mri.metricsCount else AddInt32 mri.metricsCount 1
    (stored.1.Metric,
      { metricsMap := stored.2.2, metricsCount := metricsCount,
        maxMetricCount := mri.maxMetricCount, built := built })

/-- The instrument the slow path of `GetFastCompass` puts in the new entry (lines
68 to 74 of the source): a new instrument when the count is under the cap, the
no-op instrument otherwise. -/
def slowPathInstrument (GetLevelInterval : Int → Duration) (mri : MetricRegistryImpl)
    (name : MetricName) : FastCompass :=
  if mri.metricsCount < mri.maxMetricCount then
    FastCompass.real mri.built (GetLevelInterval name.Level)
  else FastCompass.nop

/-- The function `NewMetricRegistry(maxMetricCount)`. -/
def NewMetricRegistry (maxMetricCount : Int) : MetricRegistryImpl :=
  { metricsMap := SyncMap.empty, metricsCount := 0, maxMetricCount := maxMetricCount,
    built := 0 }

/-- One call of a method of the registry. A `LastUpdateTime` call comes with the
timestamps the instruments report while it runs. -/
inductive Call where
  | GetFastCompass (name : MetricName) : Call
  | GetMetrics : Call
  | LastUpdateTime (lastUpdateTime : FastCompass → Int) : Call

/-- The registry after one call. -/
def Call.exec (GetLevelInterval : Int → Duration) (mri : MetricRegistryImpl) :
    Call → MetricRegistryImpl
  | Call.GetFastCompass name => (MetricRegistry.GetFastCompass GetLevelInterval mri name).2
  | Call.GetMetrics => (MetricRegistry.GetMetrics mri).2
  | Call.LastUpdateTime lastUpdateTime => (MetricRegistry.LastUpdateTime lastUpdateTime mri).2

/-- The registry after a sequence of calls made one after the other. -/
def runCalls (GetLevelInterval : Int → Duration) (mri : MetricRegistryImpl) :
    List Call → MetricRegistryImpl
  | [] => mri
  | c :: rest => runCalls GetLevelInterval (c.exec GetLevelInterval mri) rest

/-- The timestamps the stored instruments report, in the order `Range` visits the
entries. -/
def timestampsOf (lastUpdateTime : FastCompass → Int) (m : SyncMap) : List Int :=
  m.entries.map (fun p => lastUpdateTime p.2.Metric)

/-- The name of the first `GetFastCompass` call of a sequence of calls whose name
has the hash key `key`, if there is one. -/
def firstNameWithKey (key : String) : List Call → Option MetricName
  | [] => none
  | Call.GetFastCompass name :: rest =>
    if name.HashKey = key then some name else firstNameWithKey key rest
  | Call.GetMetrics :: rest => firstNameWithKey key rest
  | Call.LastUpdateTime _ :: rest => firstNameWithKey key rest

/-- Where a goroutine running `GetFastCompass` stands, with its local variables. -/
inductive Goroutine where
  /-- Called, before `Load`. -/
  | called : Goroutine
  /-- Load found nothing; before the read of `metricsCount`. -/
  | missed : Goroutine
  /-- The variable `newFastCmps` is set; before `LoadOrStore`. -/
  | built (newFastCmps : FastCompass) : Goroutine
  /-- LoadOrStore stored the new entry `result` (`loaded` is false); before
  `atomic.AddInt32`. -/
  | stored (result : MetricNameToMetricEntry) : Goroutine
  /-- Returned `result`. -/
  | returned (result : FastCompass) : Goroutine
  deriving DecidableEq, Repr

/-- The next atomic step of a goroutine running `GetFastCompass name`: its new
control state and the registry afterwards. -/
def stepGoroutine (GetLevelInterval : Int → Duration) (name : MetricName)
    (mri : MetricRegistryImpl) : Goroutine → Goroutine × MetricRegistryImpl
  | Goroutine.called =>
    match mri.metricsMap.Load name.HashKey with
    | some result => (Goroutine.returned result.Metric, mri)
    | none => (Goroutine.missed, mri)
  | Goroutine.missed =>
    if mri.metricsCount < mri.maxMetricCount then
      (Goroutine.built (newFastCompass mri.built (GetLevelInterval name.Level)),
        { metricsMap := mri.metricsMap, metricsCount := mri.metricsCount,
          maxMetricCount := mri.maxMetricCount, built := mri.built + 1 })
    else (Goroutine.built GetNopFastCompass, mri)
  | Goroutine.built newFastCmps =>
    if (mri.metricsMap.LoadOrStore name.HashKey ⟨name, newFastCmps⟩).2.1 then
      (Goroutine.returned
          (mri.metricsMap.LoadOrStore name.HashKey ⟨name, newFastCmps⟩).1.Metric,
        { metricsMap := (mri.metricsMap.LoadOrStore name.HashKey ⟨name, newFastCmps⟩).2.2,
          metricsCount := mri.metricsCount, maxMetricCount := mri.maxMetricCount,
          built := mri.built })
    else
      (Goroutine.stored (mri.metricsMap.LoadOrStore name.HashKey ⟨name, newFastCmps⟩).1,
        { metricsMap := (mri.metricsMap.LoadOrStore name.HashKey ⟨name, newFastCmps⟩).2.2,
          metricsCount := mri.metricsCount, maxMetricCount := mri.maxMetricCount,
          built := mri.built })
  | Goroutine.stored result =>
    (Goroutine.returned result.Metric,
      { metricsMap := mri.metricsMap, metricsCount := AddInt32 mri.metricsCount 1,
        maxMetricCount := mri.maxMetricCount, built := mri.built })
  | Goroutine.returned result => (Goroutine.returned result, mri)

/-- A value of the interface type `metrics.Metric`, the type of the field `Metric`
of an entry: an instrument that implements `metrics.FastCompass`, or a metric of
another kind. -/
inductive Metric where
  | fastCompass (fc : FastCompass) : Metric
  | otherMetric (kind : Nat) : Metric
  deriving DecidableEq, Repr

/-- The type assertion `m.(metrics.FastCompass)`. -/
def Metric.assertFastCompass : Metric → Option FastCompass
  | Metric.fastCompass fc => some fc
  | Metric.otherMetric _ => none

/-- The struct `metrics.MetricNameToMetricEntry` with its field `Metric` of the
interface type `metrics.Metric`. -/
structure DynEntry where
  MetricName : MetricName
  Metric : Metric
  deriving DecidableEq, Repr

/-- A Go value of type `interface{}`: a `string`, a
`*metrics.MetricNameToMetricEntry`, or a value of another dynamic type. -/
inductive Value where
  | string (s : String) : Value
  | entry (e : DynEntry) : Value
  | other (kind : Nat) : Value
  deriving DecidableEq, Repr

/-- The type assertion `v.(string)`. -/
def Value.assertString : Value → Option String
  | Value.string s => some s
  | _ => none

/-- The type assertion `v.(*metrics.MetricNameToMetricEntry)`. -/
def Value.assertEntry : Value → Option DynEntry
  | Value.entry e => some e
  | _ => none

/-- The method `m.Load(key)` of a `sync.Map` given by its key/value pairs. -/
def Dyn.Load (key : Value) : List (Value × Value) → Option Value
  | [] => none
  | (k, v) :: t => if k = key then some v else Dyn.Load key t

/-- The method `m.LoadOrStore(key, value)` of a `sync.Map` given by its key/value
pairs: the actual value, `loaded`, and the map afterwards. -/
def Dyn.LoadOrStore (m : List (Value × Value)) (key value : Value) :
    Value × Bool × List (Value × Value) :=
  match Dyn.Load key m with
  | some actual => (actual, true, m)
  | none => (value, false, (key, value) :: m)

/-- The method `m.Range(f)` with a callback that may panic. -/
def Dyn.Range {σ : Type} (f : σ → Value → Value → Option (σ × Bool)) :
    σ → List (Value × Value) → Option σ
  | s, [] => some s
  | s, (k, v) :: t =>
    match f s k v with
    | none => none
    | some (s2, true) => Dyn.Range f s2 t
    | some (s2, false) => some s2

/-- The struct `MetricRegistryImpl` with a `sync.Map` of `interface{}` keys and
values; `built` is the ghost field of the typed embedding. -/
structure Dyn.MetricRegistryImpl where
  metricsMap : List (Value × Value)
  metricsCount : Int
  maxMetricCount : Int
  built : Nat

/-- The assignment `result[key] = value` on a `map[string]*MetricNameToMetricEntry`
given by its key/value pairs. -/
def Dyn.set (m : List (String × DynEntry)) (key : String) (value : DynEntry) :
    List (String × DynEntry) :=
  (key, value) :: m.filter (fun p => decide (p.1 ≠ key))

/-- The method `GetMetrics` with its two type assertions. -/
def Dyn.GetMetrics (mri : Dyn.MetricRegistryImpl) :
    Option (List (String × DynEntry) × Dyn.MetricRegistryImpl) :=
  match Dyn.Range
      (fun (result : List (String × DynEntry)) key value =>
        match key.assertString, value.assertEntry with
        | some k, some e => some (Dyn.set result k e, true)
        | _, _ => none)
      [] mri.metricsMap with
  | some result => some (result, mri)
  | none => none

/-- The method `LastUpdateTime` with its type assertion; `lastUpdateTime` is what
`entry.Metric.LastUpdateTime()` reports. -/
def Dyn.LastUpdateTime (lastUpdateTime : Metric → Int) (mri : Dyn.MetricRegistryImpl) :
    Option (Int × Dyn.MetricRegistryImpl) :=
  match Dyn.Range
      (fun (result : Int) _ value =>
        match value.assertEntry with
        | some entry =>
          some (if result < lastUpdateTime entry.Metric then lastUpdateTime entry.Metric
            else result, true)
        | none => none)
      (0 : Int) mri.metricsMap with
  | some result => some (result, mri)
  | none => none

/-- The method `GetFastCompass` with its type assertions on the fast path (line 64)
and on the slow path (line 84). -/
def Dyn.GetFastCompass (GetLevelInterval : Int → Duration) (mri : Dyn.MetricRegistryImpl)
    (name : MetricName) : Option (FastCompass × Dyn.MetricRegistryImpl) :=
  match Dyn.Load (Value.string name.HashKey) mri.metricsMap with
  | some result =>
    match result.assertEntry with
    | none => none
    | some entry =>
      match entry.Metric.assertFastCompass with
      | none => none
      | some fc => some (fc, mri)
  | none =>
    let underLimit : Bool := decide (mri.metricsCount < mri.maxMetricCount)
    let newFastCmps : FastCompass :=
      if underLimit then newFastCompass mri.built (GetLevelInterval name.Level)
      else GetNopFastCompass
    let built : Nat := if underLimit then mri.built + 1 else mri.built
    let stored := Dyn.LoadOrStore mri.metricsMap (Value.string name.HashKey)
      (Value.entry ⟨name, Metric.fastCompass newFastCmps⟩)
    let metricsCount : Int :=
      if stored.2.1 then mri.metricsCount else AddInt32 mri.metricsCount 1
    match stored.1.assertEntry with
    | none => none
    | some entry =>
      match entry.Metric.assertFastCompass with
      | none => none
      | some fc =>
        some (fc,
          { metricsMap := stored.2.2, metricsCount := metricsCount,
            maxMetricCount := mri.maxMetricCount, built := built })

/-- The function `NewMetricRegistry(maxMetricCount)`. -/
def Dyn.NewMetricRegistry (maxMetricCount : Int) : Dyn.MetricRegistryImpl :=
  { metricsMap := [], metricsCount := 0, maxMetricCount := maxMetricCount, built := 0 }

/-- One call of a method of the dynamically typed registry. -/
inductive Dyn.Call where
  | GetFastCompass (name : MetricName) : Dyn.Call
  | GetMetrics : Dyn.Call
  | LastUpdateTime (lastUpdateTime : Metric → Int) : Dyn.Call

/-- The registry after one call, `none` when the call panics. -/
def Dyn.Call.exec (GetLevelInterval : Int → Duration) (mri : Dyn.MetricRegistryImpl) :
    Dyn.Call → Option Dyn.MetricRegistryImpl
  | Dyn.Call.GetFastCompass name =>
    (Dyn.GetFastCompass GetLevelInterval mri name).map Prod.snd
  | Dyn.Call.GetMetrics => (Dyn.GetMetrics mri).map Prod.snd
  | Dyn.Call.LastUpdateTime lastUpdateTime =>
    (Dyn.LastUpdateTime lastUpdateTime mri).map Prod.snd

/-- The registry after a sequence of calls, `none` when one of them panics. -/
def Dyn.runCalls (GetLevelInterval : Int → Duration) :
    Dyn.MetricRegistryImpl → List Dyn.Call → Option Dyn.MetricRegistryImpl
  | mri, [] => some mri
  | mri, c :: rest =>
    match c.exec GetLevelInterval mri with
    | none => none
    | some mri2 => Dyn.runCalls GetLevelInterval mri2 rest

/-- A map is well typed when every key is a `string` and every value is an entry
whose `Metric` is a `FastCompass`. -/
def Dyn.WellTyped (m : List (Value × Value)) : Prop :=
  ∀ p ∈ m, ∃ (k : String) (name : MetricName) (fc : FastCompass),
    p = (Value.string k, Value.entry ⟨name, Metric.fastCompass fc⟩)

/-- The dynamically typed view of a typed entry. -/
def MetricNameToMetricEntry.toDyn (e : MetricNameToMetricEntry) : DynEntry :=
  ⟨e.MetricName, Metric.fastCompass e.Metric⟩

/-- The dynamically typed view of the pairs of a typed map. -/
def toDynPairs (l : List (String × MetricNameToMetricEntry)) : List (Value × Value) :=
  l.map (fun p => (Value.string p.1, Value.entry p.2.toDyn))

/-- The dynamically typed view of a typed registry. -/
def MetricRegistryImpl.toDyn (mri : MetricRegistryImpl) : Dyn.MetricRegistryImpl :=
  { metricsMap := toDynPairs mri.metricsMap.entries, metricsCount := mri.metricsCount,
    maxMetricCount := mri.maxMetricCount, built := mri.built }

/-- The typed view of a call of the dynamically typed registry: the instruments'
timestamps are those of their metrics. -/
def Dyn.Call.toTyped : Dyn.Call → MetricRegistry.Call
  | Dyn.Call.GetFastCompass name => MetricRegistry.Call.GetFastCompass name
  | Dyn.Call.GetMetrics => MetricRegistry.Call.GetMetrics
  | Dyn.Call.LastUpdateTime lastUpdateTime =>
    MetricRegistry.Call.LastUpdateTime (fun fc => lastUpdateTime (Metric.fastCompass fc))

/-! ## Lemmas on the maps -/

theorem lookupIn_eq_none {V : Type} (key : String) (l : List (String × V)) :
    lookupIn key l = none ↔ key ∉ keysOf l := by
  induction l with
  | nil => simp [lookupIn, keysOf]
  | cons p t ih =>
    obtain ⟨k, v⟩ := p
    by_cases h : k = key
    · simp [lookupIn, keysOf, h]
    · have h2 : ¬ key = k := fun e => h e.symm
      simp only [keysOf] at ih
      simp [lookupIn, keysOf, h, h2, ih]

theorem SyncMap.store_entries_of_absent (m : SyncMap) (key : String)
    (value : MetricNameToMetricEntry) (h : m.Load key = none) :
    (m.store key value).entries = (key, value) :: m.entries := by
  have hk : key ∉ keysOf m.entries := (lookupIn_eq_none key m.entries).mp h
  simp [SyncMap.store, hk]

theorem SyncMap.Load_store_self (m : SyncMap) (key : String)
    (value : MetricNameToMetricEntry) (h : m.Load key = none) :
    (m.store key value).Load key = some value := by
  simp [SyncMap.Load, SyncMap.store_entries_of_absent m key value h, lookupIn]

theorem SyncMap.Load_store_of_ne (m : SyncMap) (key k : String)
    (value : MetricNameToMetricEntry) (hne : key ≠ k) :
    (m.store key value).Load k = m.Load k := by
  by_cases hk : key ∈ keysOf m.entries
  · simp [SyncMap.store, hk]
  · simp [SyncMap.store, hk, SyncMap.Load, lookupIn, hne]

theorem SyncMap.Load_store_of_some (m : SyncMap) (key k : String)
    (value e : MetricNameToMetricEntry) (h : m.Load k = some e) :
    (m.store key value).Load k = some e := by
  by_cases hk : key ∈ keysOf m.entries
  · simp [SyncMap.store, hk, h]
  · have hne : key ≠ k := by
      rintro rfl
      have : m.Load key = none := (lookupIn_eq_none key m.entries).mpr hk
      rw [this] at h
      cases h
    rw [SyncMap.Load_store_of_ne m key k value hne, h]

/-! ## The two paths of `GetFastCompass` -/

theorem GetFastCompass_fast (cfg : Int → Duration) (mri : MetricRegistryImpl)
    (name : MetricName) (e : MetricNameToMetricEntry)
    (h : mri.metricsMap.Load name.HashKey = some e) :
    GetFastCompass cfg mri name = (e.Metric, mri) := by
  simp [GetFastCompass, h]

theorem GetFastCompass_slow (cfg : Int → Duration) (mri : MetricRegistryImpl)
    (name : MetricName) (h : mri.metricsMap.Load name.HashKey = none) :
    GetFastCompass cfg mri name =
      (slowPathInstrument cfg mri name,
        { metricsMap := mri.metricsMap.store name.HashKey
            ⟨name, slowPathInstrument cfg mri name⟩,
          metricsCount := mri.metricsCount + 1,
          maxMetricCount := mri.maxMetricCount,
          built := if mri.metricsCount < mri.maxMetricCount then mri.built + 1
            else mri.built }) := by
  by_cases hc : mri.metricsCount < mri.maxMetricCount <;>
    simp [GetFastCompass, h, SyncMap.LoadOrStore, slowPathInstrument, hc, AddInt32,
      newFastCompass, GetNopFastCompass]

/-! ## The slow path and the fast path (C1, C2, C3) -/

/-- C2: when `metricsCount >= maxMetricCount` and the hash key of `n` is not in
the map, `GetFastCompass n` returns the no-op instrument and the entry it stores
under `n.HashKey()` holds the no-op instrument. -/
theorem C2_slow_path_at_cap (cfg : Int → Duration) (mri : MetricRegistryImpl)
    (n : MetricName)
    (habsent : mri.metricsMap.Load n.HashKey = none)
    (hfull : mri.metricsCount ≥ mri.maxMetricCount) :
    (GetFastCompass cfg mri n).1 = GetNopFastCompass ∧
    (GetFastCompass cfg mri n).2.metricsMap.Load n.HashKey = some ⟨n, GetNopFastCompass⟩ ∧
    (GetFastCompass cfg mri n).2.metricsMap.entries
      = (n.HashKey, ⟨n, GetNopFastCompass⟩) :: mri.metricsMap.entries ∧
    (GetFastCompass cfg mri n).2.built = mri.built := by
  have hc : ¬ mri.metricsCount < mri.maxMetricCount := not_lt.mpr hfull
  have hi : slowPathInstrument cfg mri n = GetNopFastCompass := by
    simp [slowPathInstrument, hc, GetNopFastCompass]
  rw [GetFastCompass_slow cfg mri n habsent, hi]
  refine ⟨rfl, ?_, ?_, ?_⟩
  · exact SyncMap.Load_store_self _ _ _ habsent
  · exact SyncMap.store_entries_of_absent _ _ _ habsent
  · simp [hc]

/-- C2 at a concrete input: the first call on `NewMetricRegistry 0`. -/
theorem C2_slow_path_at_cap_witness :
    (GetFastCompass (fun level => 1000 * level) (NewMetricRegistry 0) ⟨"a", 3⟩).1
        = FastCompass.nop ∧
    (GetFastCompass (fun level => 1000 * level) (NewMetricRegistry 0)
        ⟨"a", 3⟩).2.metricsMap.Load "a" = some ⟨⟨"a", 3⟩, FastCompass.nop⟩ := by
  have h := C2_slow_path_at_cap (fun level => 1000 * level) (NewMetricRegistry 0) ⟨"a", 3⟩
    (by decide) (by decide)
  exact ⟨h.1, h.2.1⟩

/-- C3: when the hash key of `n` is already in the map, `GetFastCompass n`
returns the instrument of the stored entry and leaves the whole registry (map,
count, cap, number of instruments built) unchanged. -/
theorem C3_fast_path (cfg : Int → Duration) (mri : MetricRegistryImpl) (n : MetricName)
    (e : MetricNameToMetricEntry) (hstored : mri.metricsMap.Load n.HashKey = some e) :
    GetFastCompass cfg mri n = (e.Metric, mri) :=
  GetFastCompass_fast cfg mri n e hstored

/-- C3 at a concrete input: the second call for the key `"a"`, with another
level. -/
theorem C3_fast_path_witness :
    GetFastCompass (fun level => 1000 * level)
        (GetFastCompass (fun level => 1000 * level) (NewMetricRegistry 2) ⟨"a", 3⟩).2 ⟨"a", 5⟩
      = (FastCompass.real 0 3000,
          (GetFastCompass (fun level => 1000 * level) (NewMetricRegistry 2) ⟨"a", 3⟩).2) :=
  C3_fast_path (fun level => 1000 * level)
    (GetFastCompass (fun level => 1000 * level) (NewMetricRegistry 2) ⟨"a", 3⟩).2 ⟨"a", 5⟩
    ⟨⟨"a", 3⟩, FastCompass.real 0 3000⟩ (by decide)

/-! ## Single calls: frame, monotone count, append-only entries -/

theorem GetFastCompass_snd_cases (cfg : Int → Duration) (mri : MetricRegistryImpl)
    (name : MetricName) :
    (∃ e, mri.metricsMap.Load name.HashKey = some e ∧
        GetFastCompass cfg mri name = (e.Metric, mri)) ∨
    (mri.metricsMap.Load name.HashKey = none ∧
        GetFastCompass cfg mri name =
          (slowPathInstrument cfg mri name,
            { metricsMap := mri.metricsMap.store name.HashKey
                ⟨name, slowPathInstrument cfg mri name⟩,
              metricsCount := mri.metricsCount + 1,
              maxMetricCount := mri.maxMetricCount,
              built := if mri.metricsCount < mri.maxMetricCount then mri.built + 1
                else mri.built })) := by
  cases h : mri.metricsMap.Load name.HashKey with
  | some e => exact Or.inl ⟨e, rfl, GetFastCompass_fast cfg mri name e h⟩
  | none => exact Or.inr ⟨rfl, GetFastCompass_slow cfg mri name h⟩

theorem GetFastCompass_Load_preserved (cfg : Int → Duration) (mri : MetricRegistryImpl)
    (name : MetricName) (k : String) (e : MetricNameToMetricEntry)
    (h : mri.metricsMap.Load k = some e) :
    (GetFastCompass cfg mri name).2.metricsMap.Load k = some e := by
  rcases GetFastCompass_snd_cases cfg mri name with ⟨e', _, heq⟩ | ⟨_, heq⟩
  · rw [heq]; exact h
  · rw [heq]; exact SyncMap.Load_store_of_some _ _ _ _ _ h

theorem exec_Load_preserved (cfg : Int → Duration) (mri : MetricRegistryImpl) (c : Call)
    (k : String) (e : MetricNameToMetricEntry) (h : mri.metricsMap.Load k = some e) :
    (c.exec cfg mri).metricsMap.Load k = some e := by
  cases c with
  | GetFastCompass name => exact GetFastCompass_Load_preserved cfg mri name k e h
  | GetMetrics => exact h
  | LastUpdateTime ts => exact h

theorem runCalls_Load_preserved (cfg : Int → Duration) (calls : List Call) :
    ∀ (mri : MetricRegistryImpl) (k : String) (e : MetricNameToMetricEntry),
      mri.metricsMap.Load k = some e → (runCalls cfg mri calls).metricsMap.Load k = some e := by
  induction calls with
  | nil => intro mri k e h; exact h
  | cons c rest ih =>
    intro mri k e h
    exact ih (c.exec cfg mri) k e (exec_Load_preserved cfg mri c k e h)

theorem GetFastCompass_result_stored (cfg : Int → Duration) (mri : MetricRegistryImpl)
    (name : MetricName) :
    ∃ e, (GetFastCompass cfg mri name).2.metricsMap.Load name.HashKey = some e ∧
      e.Metric = (GetFastCompass cfg mri name).1 := by
  rcases GetFastCompass_snd_cases cfg mri name with ⟨e, hl, heq⟩ | ⟨hl, heq⟩
  · exact ⟨e, by rw [heq]; exact hl, by rw [heq]⟩
  · refine ⟨⟨name, slowPathInstrument cfg mri name⟩, ?_, by rw [heq]⟩
    rw [heq]
    exact SyncMap.Load_store_self _ _ _ hl

/-- C4: after a first `GetFastCompass n`, whatever calls follow, a later
`GetFastCompass n` returns the very instrument the first call returned and leaves
the registry, hence the count, unchanged. -/
theorem C4_repeated_get_same_instrument (cfg : Int → Duration) (mri : MetricRegistryImpl)
    (n : MetricName) (calls : List Call) :
    GetFastCompass cfg (runCalls cfg (GetFastCompass cfg mri n).2 calls) n
        = ((GetFastCompass cfg mri n).1, runCalls cfg (GetFastCompass cfg mri n).2 calls) ∧
    (GetFastCompass cfg (runCalls cfg (GetFastCompass cfg mri n).2 calls) n).2.metricsCount
        = (runCalls cfg (GetFastCompass cfg mri n).2 calls).metricsCount := by
  obtain ⟨e, hl, he⟩ := GetFastCompass_result_stored cfg mri n
  have hl2 := runCalls_Load_preserved cfg calls _ _ _ hl
  have h := GetFastCompass_fast cfg _ n e hl2
  rw [h, he]
  exact ⟨rfl, rfl⟩

/-- C9: entries are append-only: a key mapped to an entry is mapped to the same
entry after any single call. -/
theorem C9_entries_append_only (cfg : Int → Duration) (mri : MetricRegistryImpl) (c : Call)
    (k : String) (e : MetricNameToMetricEntry) (h : mri.metricsMap.Load k = some e) :
    (c.exec cfg mri).metricsMap.Load k = some e :=
  exec_Load_preserved cfg mri c k e h

/-- C9 at a concrete input: the entry of `"a"` survives the creation of `"b"` on a
full registry. -/
theorem C9_entries_append_only_witness :
    (Call.exec (fun level => 1000 * level)
        (GetFastCompass (fun level => 1000 * level) (NewMetricRegistry 1) ⟨"a", 3⟩).2
        (Call.GetFastCompass ⟨"b", 4⟩)).metricsMap.Load "a"
      = some ⟨⟨"a", 3⟩, FastCompass.real 0 3000⟩ :=
  C9_entries_append_only (fun level => 1000 * level)
    (GetFastCompass (fun level => 1000 * level) (NewMetricRegistry 1) ⟨"a", 3⟩).2
    (Call.GetFastCompass ⟨"b", 4⟩) "a" ⟨⟨"a", 3⟩, FastCompass.real 0 3000⟩ (by decide)

/-! ## Sequences of calls: the count invariant and distinct creations -/

theorem runCalls_distinct (cfg : Int → Duration) (names : List MetricName) :
    ∀ mri : MetricRegistryImpl,
      (names.map MetricName.HashKey).Nodup →
      (∀ n ∈ names, mri.metricsMap.Load n.HashKey = none) →
      keysOf (runCalls cfg mri (names.map Call.GetFastCompass)).metricsMap.entries
          = (names.map MetricName.HashKey).reverse ++ keysOf mri.metricsMap.entries ∧
      (runCalls cfg mri (names.map Call.GetFastCompass)).metricsCount
          = mri.metricsCount + (names.length : Int) ∧
      ∀ n ∈ names, ∃ e,
        (runCalls cfg mri (names.map Call.GetFastCompass)).metricsMap.Load n.HashKey = some e ∧
        e.MetricName = n := by
  induction names with
  | nil => intro mri _ _; simp [runCalls]
  | cons n rest ih =>
    intro mri hnd habs
    have hn : mri.metricsMap.Load n.HashKey = none := habs n (List.mem_cons_self _ _)
    have heq := GetFastCompass_slow cfg mri n hn
    rw [List.map_cons, List.nodup_cons] at hnd
    have habs1 : ∀ m ∈ rest,
        (GetFastCompass cfg mri n).2.metricsMap.Load m.HashKey = none := by
      intro m hm
      have hne : n.HashKey ≠ m.HashKey := by
        intro hk
        exact hnd.1 (hk ▸ List.mem_map_of_mem MetricName.HashKey hm)
      rw [heq]
      simp only
      rw [SyncMap.Load_store_of_ne _ _ _ _ hne]
      exact habs m (List.mem_cons_of_mem _ hm)
    obtain ⟨hk, hc, hl⟩ := ih (GetFastCompass cfg mri n).2 hnd.2 habs1
    have hfirst : (GetFastCompass cfg mri n).2.metricsMap.Load n.HashKey
        = some ⟨n, slowPathInstrument cfg mri n⟩ := by
      rw [heq]
      exact SyncMap.Load_store_self _ _ _ hn
    simp only [List.map_cons, runCalls, Call.exec]
    refine ⟨?_, ?_, ?_⟩
    · rw [hk, heq]
      simp [SyncMap.store_entries_of_absent _ _ _ hn, keysOf]
    · rw [hc, heq]
      simp only [List.length_cons]
      push_cast
      ring
    · intro m hm
      rcases List.mem_cons.mp hm with rfl | hm
      · exact ⟨_, runCalls_Load_preserved cfg _ _ _ _ hfirst, rfl⟩
      · exact hl m hm

theorem NewMetricRegistry_Load (cap : Int) (k : String) :
    (NewMetricRegistry cap).metricsMap.Load k = none := rfl

theorem exec_maxMetricCount (cfg : Int → Duration) (mri : MetricRegistryImpl) (c : Call) :
    (c.exec cfg mri).maxMetricCount = mri.maxMetricCount := by
  cases c with
  | GetFastCompass name =>
    rcases GetFastCompass_snd_cases cfg mri name with ⟨e, _, heq⟩ | ⟨_, heq⟩ <;>
      simp [Call.exec, heq]
  | GetMetrics => rfl
  | LastUpdateTime ts => rfl

theorem runCalls_maxMetricCount (cfg : Int → Duration) (calls : List Call) :
    ∀ mri : MetricRegistryImpl,
      (runCalls cfg mri calls).maxMetricCount = mri.maxMetricCount := by
  induction calls with
  | nil => intro mri; rfl
  | cons c rest ih =>
    intro mri
    rw [runCalls, ih, exec_maxMetricCount]

theorem lookupIn_eq_some_iff {V : Type} (key : String) (v : V) (l : List (String × V))
    (hnd : (keysOf l).Nodup) : lookupIn key l = some v ↔ (key, v) ∈ l := by
  induction l with
  | nil => simp [lookupIn]
  | cons p t ih =>
    obtain ⟨k, w⟩ := p
    simp only [keysOf, List.map_cons, List.nodup_cons] at hnd
    by_cases h : k = key
    · subst h
      have hnot : ∀ u, (k, u) ∉ t := fun u hu => hnd.1 (List.mem_map_of_mem Prod.fst hu)
      simp only [lookupIn, if_true, Option.some.injEq, List.mem_cons, Prod.mk.injEq, true_and]
      constructor
      · intro e; exact Or.inl e.symm
      · rintro (e | e)
        · exact e.symm
        · exact absurd e (hnot v)
    · have h2 : ¬ key = k := fun e => h e.symm
      simp [lookupIn, h, h2, ih hnd.2]

theorem GoMap.set_entries_of_absent (m : GoMap) (key : String)
    (value : MetricNameToMetricEntry) (h : key ∉ keysOf m.entries) :
    (m.set key value).entries = (key, value) :: m.entries := by
  have hf : m.entries.filter (fun p => decide (p.1 ≠ key)) = m.entries := by
    rw [List.filter_eq_self]
    intro p hp
    have : p.1 ≠ key := by
      rintro rfl
      exact h (List.mem_map_of_mem Prod.fst hp)
    simpa using this
  simp only [GoMap.set, hf]

theorem rangeLoop_set_entries (l : List (String × MetricNameToMetricEntry)) :
    ∀ acc : GoMap, (keysOf l).Nodup → (∀ k ∈ keysOf l, k ∉ keysOf acc.entries) →
      (rangeLoop (fun (result : GoMap) key value => (result.set key value, true)) acc l).entries
        = l.reverse ++ acc.entries := by
  induction l with
  | nil => intro acc _ _; simp [rangeLoop]
  | cons p t ih =>
    intro acc hnd hdis
    obtain ⟨k, v⟩ := p
    simp only [keysOf, List.map_cons, List.nodup_cons] at hnd
    have hk : k ∉ keysOf acc.entries := hdis k (by simp [keysOf])
    have hset := GoMap.set_entries_of_absent acc k v hk
    have hdis2 : ∀ k2 ∈ keysOf t, k2 ∉ keysOf (acc.set k v).entries := by
      intro k2 hk2
      rw [hset]
      simp only [keysOf, List.map_cons, List.mem_cons, not_or]
      refine ⟨?_, hdis k2 (by simp only [keysOf, List.map_cons]; exact List.mem_cons_of_mem _ hk2)⟩
      rintro rfl
      exact hnd.1 hk2
    simp only [rangeLoop, if_true]
    rw [ih (acc.set k v) hnd.2 hdis2, hset]
    simp

theorem GetMetrics_entries (mri : MetricRegistryImpl) :
    (GetMetrics mri).1.entries = mri.metricsMap.entries.reverse := by
  have h := rangeLoop_set_entries mri.metricsMap.entries (GoMap.make mri.metricsCount)
    mri.metricsMap.nodup (by intro k _; simp [GoMap.make, keysOf])
  simp only [GetMetrics, SyncMap.Range, h]
  simp [GoMap.make]

theorem GetMetrics_get (mri : MetricRegistryImpl) (k : String) :
    (GetMetrics mri).1.get k = mri.metricsMap.Load k := by
  cases h : mri.metricsMap.Load k with
  | none =>
    have hk : k ∉ keysOf mri.metricsMap.entries := (lookupIn_eq_none _ _).mp h
    apply (lookupIn_eq_none _ _).mpr
    rw [GetMetrics_entries]
    simpa [keysOf] using hk
  | some e =>
    have hk : (k, e) ∈ mri.metricsMap.entries :=
      (lookupIn_eq_some_iff k e _ mri.metricsMap.nodup).mp h
    apply (lookupIn_eq_some_iff k e _ (GetMetrics mri).1.nodup).mpr
    rw [GetMetrics_entries]
    exact List.mem_reverse.mpr hk

/-- C10: `GetMetrics` returns a map with exactly the keys stored in the registry,
each mapped to the entry the registry holds, and leaves the registry unchanged;
after creating `names` with pairwise distinct hash keys on a fresh registry it
returns exactly as many entries as there are names, one for each name and none for
any other key. -/
theorem C10_GetMetrics_snapshot (cfg : Int → Duration) (mri : MetricRegistryImpl) (cap : Int)
    (names : List MetricName) (hdistinct : (names.map MetricName.HashKey).Nodup) :
    (GetMetrics mri).2 = mri ∧
    (∀ k, (GetMetrics mri).1.get k = mri.metricsMap.Load k) ∧
    (GetMetrics mri).1.len = mri.metricsMap.entries.length ∧
    (GetMetrics (runCalls cfg (NewMetricRegistry cap) (names.map Call.GetFastCompass))).1.len
        = names.length ∧
    (∀ n ∈ names, ∃ e,
      (GetMetrics (runCalls cfg (NewMetricRegistry cap)
        (names.map Call.GetFastCompass))).1.get n.HashKey = some e ∧ e.MetricName = n) ∧
    (∀ k, k ∉ names.map MetricName.HashKey →
      (GetMetrics (runCalls cfg (NewMetricRegistry cap)
        (names.map Call.GetFastCompass))).1.get k = none) := by
  obtain ⟨hkeys, _, hload⟩ := runCalls_distinct cfg names (NewMetricRegistry cap) hdistinct
    (fun n _ => NewMetricRegistry_Load cap n.HashKey)
  have hkeys2 : keysOf (runCalls cfg (NewMetricRegistry cap)
      (names.map Call.GetFastCompass)).metricsMap.entries
      = (names.map MetricName.HashKey).reverse := by
    rw [hkeys]; simp [NewMetricRegistry, SyncMap.empty, keysOf]
  refine ⟨rfl, GetMetrics_get mri, ?_, ?_, ?_, ?_⟩
  · simp [GoMap.len, GetMetrics_entries]
  · have hl := congrArg List.length hkeys2
    simp only [keysOf, List.length_map, List.length_reverse] at hl
    simp [GoMap.len, GetMetrics_entries, hl]
  · intro n hn
    obtain ⟨e, he, hne⟩ := hload n hn
    exact ⟨e, by rw [GetMetrics_get]; exact he, hne⟩
  · intro k hk
    rw [GetMetrics_get]
    apply (lookupIn_eq_none _ _).mpr
    rw [hkeys2]
    simpa using hk

/-- C10 at a concrete input: two creations on a registry of capacity 1. -/
theorem C10_GetMetrics_snapshot_witness :
    (GetMetrics (runCalls (fun level => 1000 * level) (NewMetricRegistry 1)
        ([⟨"a", 3⟩, ⟨"b", 4⟩].map Call.GetFastCompass))).1.len = 2 ∧
    (GetMetrics (runCalls (fun level => 1000 * level) (NewMetricRegistry 1)
        ([⟨"a", 3⟩, ⟨"b", 4⟩].map Call.GetFastCompass))).1.get "c" = none :=
  have h := C10_GetMetrics_snapshot (fun level => 1000 * level) (NewMetricRegistry 1) 1
    [⟨"a", 3⟩, ⟨"b", 4⟩] (by decide)
  ⟨h.2.2.2.1, h.2.2.2.2.2 "c" (by decide)⟩

/-! ## `LastUpdateTime` (C11, C17) -/

theorem rangeLoop_lastUpdate (ts : FastCompass → Int)
    (l : List (String × MetricNameToMetricEntry)) :
    ∀ init : Int,
      init ≤ rangeLoop (fun (result : Int) (_ : String) (entry : MetricNameToMetricEntry) =>
          (if result < ts entry.Metric then ts entry.Metric else result, true)) init l ∧
      (∀ p ∈ l, ts p.2.Metric ≤
        rangeLoop (fun (result : Int) (_ : String) (entry : MetricNameToMetricEntry) =>
          (if result < ts entry.Metric then ts entry.Metric else result, true)) init l) ∧
      (rangeLoop (fun (result : Int) (_ : String) (entry : MetricNameToMetricEntry) =>
          (if result < ts entry.Metric then ts entry.Metric else result, true)) init l = init ∨
        ∃ p ∈ l, ts p.2.Metric =
          rangeLoop (fun (result : Int) (_ : String) (entry : MetricNameToMetricEntry) =>
            (if result < ts entry.Metric then ts entry.Metric else result, true)) init l) := by
  induction l with
  | nil => intro init; simp [rangeLoop]
  | cons p t ih =>
    intro init
    obtain ⟨k, e⟩ := p
    simp only [rangeLoop, if_true]
    obtain ⟨h1, h2, h3⟩ := ih (if init < ts e.Metric then ts e.Metric else init)
    have hstep : init ≤ (if init < ts e.Metric then ts e.Metric else init) ∧
        ts e.Metric ≤ (if init < ts e.Metric then ts e.Metric else init) := by
      split_ifs with h
      · exact ⟨le_of_lt h, le_refl _⟩
      · exact ⟨le_refl _, not_lt.mp h⟩
    refine ⟨le_trans hstep.1 h1, ?_, ?_⟩
    · intro p hp
      rcases List.mem_cons.mp hp with rfl | hp
      · exact le_trans hstep.2 h1
      · exact h2 p hp
    · rcases h3 with h3 | ⟨p, hp, h3⟩
      · by_cases h : init < ts e.Metric
        · right
          refine ⟨(k, e), List.mem_cons_self _ _, ?_⟩
          rw [h3]; simp [h]
        · left
          rw [h3]; simp [h]
      · exact Or.inr ⟨p, List.mem_cons_of_mem _ hp, h3⟩

theorem LastUpdateTime_isGreatest (ts : FastCompass → Int) (mri : MetricRegistryImpl) :
    IsGreatest (insert 0 {t | t ∈ timestampsOf ts mri.metricsMap})
      (LastUpdateTime ts mri).1 := by
  obtain ⟨h1, h2, h3⟩ := rangeLoop_lastUpdate ts mri.metricsMap.entries 0
  constructor
  · rcases h3 with h3 | ⟨p, hp, h3⟩
    · left
      exact h3
    · right
      exact List.mem_map.mpr ⟨p, hp, h3⟩
  · rintro t (ht | ht)
    · rw [ht]; exact h1
    · obtain ⟨p, hp, rfl⟩ := List.mem_map.mp ht
      exact h2 p hp

theorem LastUpdateTime_perm (ts : FastCompass → Int) (mri mri2 : MetricRegistryImpl)
    (h : mri.metricsMap.entries.Perm mri2.metricsMap.entries) :
    (LastUpdateTime ts mri).1 = (LastUpdateTime ts mri2).1 := by
  have h1 := LastUpdateTime_isGreatest ts mri
  have h2 := LastUpdateTime_isGreatest ts mri2
  have hset : {t | t ∈ timestampsOf ts mri.metricsMap}
      = {t | t ∈ timestampsOf ts mri2.metricsMap} := by
    ext t
    exact (List.Perm.map _ h).mem_iff
  rw [hset] at h1
  exact h1.unique h2

/-- C11 as stated fails: the registry holding the single real instrument of `"a"`,
which reports the timestamp `-5`, is not empty, yet `LastUpdateTime` returns `0`,
which is not the maximum of the reported timestamps (that maximum is `-5`). -/
theorem C11_negative_timestamps_counterexample :
    (GetFastCompass (fun level => 1000 * level) (NewMetricRegistry 1)
        ⟨"a", 3⟩).2.metricsMap.entries ≠ [] ∧
    timestampsOf (fun fc => if fc.isNop then 0 else -5)
        (GetFastCompass (fun level => 1000 * level) (NewMetricRegistry 1)
          ⟨"a", 3⟩).2.metricsMap = [-5] ∧
    (LastUpdateTime (fun fc => if fc.isNop then 0 else -5)
        (GetFastCompass (fun level => 1000 * level) (NewMetricRegistry 1) ⟨"a", 3⟩).2).1 = 0 ∧
    ¬ IsGreatest
        {t | t ∈ timestampsOf (fun fc => if fc.isNop then 0 else -5)
          (GetFastCompass (fun level => 1000 * level) (NewMetricRegistry 1)
            ⟨"a", 3⟩).2.metricsMap}
        (LastUpdateTime (fun fc => if fc.isNop then 0 else -5)
          (GetFastCompass (fun level => 1000 * level) (NewMetricRegistry 1) ⟨"a", 3⟩).2).1 := by
  refine ⟨by decide, by decide, by decide, ?_⟩
  intro h
  have hmem := h.1
  revert hmem
  simp only [Set.mem_setOf_eq]
  decide

/-- C11 (amended): `LastUpdateTime` returns the maximum of `0` and the timestamps
reported by the stored instruments, for every assignment of timestamps; this is the
maximum of the reported timestamps as soon as one stored instrument reports a
timestamp `>= 0`; and the result does not depend on the order in which the entries
are visited (a registry whose entries are a permutation gives the same result). -/
theorem C11_LastUpdateTime_max (ts : FastCompass → Int) (mri mri2 : MetricRegistryImpl)
    (hperm : mri.metricsMap.entries.Perm mri2.metricsMap.entries) :
    IsGreatest (insert 0 {t | t ∈ timestampsOf ts mri.metricsMap})
      (LastUpdateTime ts mri).1 ∧
    ((∃ t ∈ timestampsOf ts mri.metricsMap, 0 ≤ t) →
      IsGreatest {t | t ∈ timestampsOf ts mri.metricsMap} (LastUpdateTime ts mri).1) ∧
    (LastUpdateTime ts mri2).1 = (LastUpdateTime ts mri).1 := by
  have hg := LastUpdateTime_isGreatest ts mri
  refine ⟨hg, ?_, (LastUpdateTime_perm ts mri mri2 hperm).symm⟩
  rintro ⟨t, ht, h0⟩
  refine ⟨?_, fun u hu => hg.2 (Set.mem_insert_of_mem _ hu)⟩
  rcases hg.1 with h | h
  · have hle : t ≤ (LastUpdateTime ts mri).1 := hg.2 (Set.mem_insert_of_mem _ ht)
    have heq : t = (LastUpdateTime ts mri).1 := by
      rw [h] at hle ⊢
      exact le_antisymm hle h0
    rw [← heq]
    exact ht
  · exact h

/-- C11 (amended) at a concrete input: two entries visited in either order, with
timestamps 7 for the real instrument and 0 for the no-op instrument. -/
theorem C11_LastUpdateTime_max_witness :
    (LastUpdateTime (fun fc => if fc.isNop then 0 else 7)
        { metricsMap := ⟨[("a", ⟨⟨"a", 3⟩, FastCompass.real 0 3000⟩),
            ("b", ⟨⟨"b", 3⟩, FastCompass.nop⟩)], by decide⟩,
          metricsCount := 2, maxMetricCount := 1, built := 1 }).1
      = (LastUpdateTime (fun fc => if fc.isNop then 0 else 7)
          (runCalls (fun level => 1000 * level) (NewMetricRegistry 1)
            [Call.GetFastCompass ⟨"a", 3⟩, Call.GetFastCompass ⟨"b", 3⟩])).1 ∧
    IsGreatest
      {t | t ∈ timestampsOf (fun fc => if fc.isNop then 0 else 7)
        (runCalls (fun level => 1000 * level) (NewMetricRegistry 1)
          [Call.GetFastCompass ⟨"a", 3⟩, Call.GetFastCompass ⟨"b", 3⟩]).metricsMap}
      (LastUpdateTime (fun fc => if fc.isNop then 0 else 7)
        (runCalls (fun level => 1000 * level) (NewMetricRegistry 1)
          [Call.GetFastCompass ⟨"a", 3⟩, Call.GetFastCompass ⟨"b", 3⟩])).1 := by
  have hentries : (runCalls (fun level => 1000 * level) (NewMetricRegistry 1)
      [Call.GetFastCompass ⟨"a", 3⟩, Call.GetFastCompass ⟨"b", 3⟩]).metricsMap.entries
      = [("b", ⟨⟨"b", 3⟩, FastCompass.nop⟩), ("a", ⟨⟨"a", 3⟩, FastCompass.real 0 3000⟩)] := by
    decide
  have h := C11_LastUpdateTime_max (fun fc => if fc.isNop then 0 else 7)
    (runCalls (fun level => 1000 * level) (NewMetricRegistry 1)
      [Call.GetFastCompass ⟨"a", 3⟩, Call.GetFastCompass ⟨"b", 3⟩])
    { metricsMap := ⟨[("a", ⟨⟨"a", 3⟩, FastCompass.real 0 3000⟩),
        ("b", ⟨⟨"b", 3⟩, FastCompass.nop⟩)], by decide⟩,
      metricsCount := 2, maxMetricCount := 1, built := 1 }
    (by rw [hentries]; exact List.Perm.swap _ _ _)
  exact ⟨h.2.2, h.2.1 ⟨7, by decide, by decide⟩⟩

/-- C17: `LastUpdateTime` returns the maximum of `0` and the timestamps of all
stored instruments: it is `0` on an empty registry (so on a new one), it is never
negative, and it is `0` when every stored instrument reports a timestamp `<= 0`. -/
theorem C17_LastUpdateTime_floor_zero (ts : FastCompass → Int) (mri : MetricRegistryImpl)
    (cap : Int) :
    IsGreatest (insert 0 {t | t ∈ timestampsOf ts mri.metricsMap})
      (LastUpdateTime ts mri).1 ∧
    0 ≤ (LastUpdateTime ts mri).1 ∧
    (mri.metricsMap.entries = [] → (LastUpdateTime ts mri).1 = 0) ∧
    (LastUpdateTime ts (NewMetricRegistry cap)).1 = 0 ∧
    ((∀ t ∈ timestampsOf ts mri.metricsMap, t ≤ 0) → (LastUpdateTime ts mri).1 = 0) := by
  have hg := LastUpdateTime_isGreatest ts mri
  have h0 : 0 ≤ (LastUpdateTime ts mri).1 := hg.2 (Set.mem_insert _ _)
  have hall : (∀ t ∈ timestampsOf ts mri.metricsMap, t ≤ 0) →
      (LastUpdateTime ts mri).1 = 0 := by
    intro hle
    rcases hg.1 with h | h
    · exact h
    · exact le_antisymm (hle _ h) h0
  refine ⟨hg, h0, ?_, rfl, hall⟩
  intro hempty
  apply hall
  intro t ht
  simp [timestampsOf, hempty] at ht

/-- C17 at a concrete input: one real instrument reporting `-5`. -/
theorem C17_LastUpdateTime_floor_zero_witness :
    (LastUpdateTime (fun fc => if fc.isNop then 0 else -5)
      (GetFastCompass (fun level => 1000 * level) (NewMetricRegistry 1) ⟨"a", 3⟩).2).1 = 0 :=
  (C17_LastUpdateTime_floor_zero (fun fc => if fc.isNop then 0 else -5)
    (GetFastCompass (fun level => 1000 * level) (NewMetricRegistry 1) ⟨"a", 3⟩).2 1).2.2.2.2
    (by decide)

/-! ## Construction and the cap (C12, C13, C14) -/

/-- C12: `NewMetricRegistry cap` has no entries, count `0` and cap `cap`, so that
`GetMetrics` is empty and `LastUpdateTime` is `0` on it; no call changes
`maxMetricCount`, which equals `cap` in every state reached from
`NewMetricRegistry cap`. -/
theorem C12_new_registry_and_fixed_cap (cfg : Int → Duration) (cap : Int)
    (ts : FastCompass → Int) (k : String) (mri : MetricRegistryImpl) (c : Call)
    (calls : List Call) :
    (NewMetricRegistry cap).metricsMap.entries = [] ∧
    (NewMetricRegistry cap).metricsCount = 0 ∧
    (NewMetricRegistry cap).maxMetricCount = cap ∧
    (GetMetrics (NewMetricRegistry cap)).1.len = 0 ∧
    (GetMetrics (NewMetricRegistry cap)).1.get k = none ∧
    (LastUpdateTime ts (NewMetricRegistry cap)).1 = 0 ∧
    (c.exec cfg mri).maxMetricCount = mri.maxMetricCount ∧
    (runCalls cfg (NewMetricRegistry cap) calls).maxMetricCount = cap :=
  ⟨rfl, rfl, rfl, rfl, rfl, rfl, exec_maxMetricCount cfg mri c,
    runCalls_maxMetricCount cfg calls (NewMetricRegistry cap)⟩

theorem GetFastCompass_Load (cfg : Int → Duration) (mri : MetricRegistryImpl)
    (name : MetricName) (k : String) :
    (GetFastCompass cfg mri name).2.metricsMap.Load k =
      match mri.metricsMap.Load k with
      | some e => some e
      | none =>
        if name.HashKey = k then some ⟨name, slowPathInstrument cfg mri name⟩ else none := by
  cases hk : mri.metricsMap.Load k with
  | some e => exact GetFastCompass_Load_preserved cfg mri name k e hk
  | none =>
    rcases GetFastCompass_snd_cases cfg mri name with ⟨e, hl, heq⟩ | ⟨hl, heq⟩
    · have hne : name.HashKey ≠ k := by
        rintro rfl
        rw [hk] at hl
        cases hl
      rw [heq]
      simp [hne, hk]
    · rw [heq]
      by_cases hne : name.HashKey = k
      · subst hne
        simp only [if_true]
        exact SyncMap.Load_store_self _ _ _ hl
      · simp only [hne, if_false]
        rw [SyncMap.Load_store_of_ne _ _ _ _ hne]
        exact hk

theorem runCalls_Load_name (cfg : Int → Duration) (calls : List Call) :
    ∀ (mri : MetricRegistryImpl) (k : String),
      ((runCalls cfg mri calls).metricsMap.Load k).map (fun e => e.MetricName) =
        match mri.metricsMap.Load k with
        | some e => some e.MetricName
        | none => firstNameWithKey k calls := by
  induction calls with
  | nil =>
    intro mri k
    cases h : mri.metricsMap.Load k <;> simp [runCalls, firstNameWithKey, h]
  | cons c rest ih =>
    intro mri k
    cases c with
    | GetFastCompass name =>
      simp only [runCalls, Call.exec, firstNameWithKey]
      rw [ih, GetFastCompass_Load]
      cases h : mri.metricsMap.Load k with
      | some e => rfl
      | none =>
        by_cases hne : name.HashKey = k <;> simp [hne]
    | GetMetrics => exact ih mri k
    | LastUpdateTime ts => exact ih mri k

theorem runCalls_key_of_name (cfg : Int → Duration) (calls : List Call) :
    ∀ (mri : MetricRegistryImpl),
      (∀ k e, mri.metricsMap.Load k = some e → e.MetricName.HashKey = k) →
      ∀ k e, (runCalls cfg mri calls).metricsMap.Load k = some e → e.MetricName.HashKey = k := by
  induction calls with
  | nil => intro mri h; exact h
  | cons c rest ih =>
    intro mri h
    apply ih
    cases c with
    | GetFastCompass name =>
      intro k e hl
      simp only [Call.exec] at hl
      rw [GetFastCompass_Load] at hl
      cases hk : mri.metricsMap.Load k with
      | some e2 =>
        rw [hk] at hl
        cases hl
        exact h k e hk
      | none =>
        rw [hk] at hl
        by_cases hne : name.HashKey = k
        · simp only [hne, if_true, Option.some.injEq] at hl
          rw [← hl]
          exact hne
        · simp [hne] at hl
    | GetMetrics => exact h
    | LastUpdateTime ts => exact h

/-- C18: in every state reached from `NewMetricRegistry cap` by a sequence of
calls, the entry `e` stored under a key `k` has `e.MetricName.HashKey() = k`, and
`e.MetricName` is the name passed to the first `GetFastCompass` call of the
sequence whose name has the hash key `k`. -/
theorem C18_key_is_hash_of_first_name (cfg : Int → Duration) (cap : Int) (calls : List Call)
    (k : String) (e : MetricNameToMetricEntry)
    (hstored : (runCalls cfg (NewMetricRegistry cap) calls).metricsMap.Load k = some e) :
    e.MetricName.HashKey = k ∧ firstNameWithKey k calls = some e.MetricName := by
  constructor
  · exact runCalls_key_of_name cfg calls (NewMetricRegistry cap)
      (fun k e h => by cases h) k e hstored
  · have h := runCalls_Load_name cfg calls (NewMetricRegistry cap) k
    rw [hstored] at h
    simpa [NewMetricRegistry_Load] using h.symm

/-- C18 at a concrete input: the key `"a"` is requested twice, first with level 3. -/
theorem C18_key_is_hash_of_first_name_witness :
    firstNameWithKey "a"
        [Call.GetFastCompass ⟨"b", 1⟩, Call.GetFastCompass ⟨"a", 3⟩, Call.GetMetrics,
          Call.GetFastCompass ⟨"a", 5⟩]
      = some (⟨"a", 3⟩ : MetricName) :=
  (C18_key_is_hash_of_first_name (fun level => 1000 * level) 1
    [Call.GetFastCompass ⟨"b", 1⟩, Call.GetFastCompass ⟨"a", 3⟩, Call.GetMetrics,
      Call.GetFastCompass ⟨"a", 5⟩] "a" ⟨⟨"a", 3⟩, FastCompass.nop⟩ (by decide)).2

theorem stepGoroutine_alone (cfg : Int → Duration) (name : MetricName)
    (mri : MetricRegistryImpl) :
    stepGoroutine cfg name
        (stepGoroutine cfg name
          (stepGoroutine cfg name
            (stepGoroutine cfg name mri Goroutine.called).2
            (stepGoroutine cfg name mri Goroutine.called).1).2
          (stepGoroutine cfg name
            (stepGoroutine cfg name mri Goroutine.called).2
            (stepGoroutine cfg name mri Goroutine.called).1).1).2
        (stepGoroutine cfg name
          (stepGoroutine cfg name
            (stepGoroutine cfg name mri Goroutine.called).2
            (stepGoroutine cfg name mri Goroutine.called).1).2
          (stepGoroutine cfg name
            (stepGoroutine cfg name mri Goroutine.called).2
            (stepGoroutine cfg name mri Goroutine.called).1).1).1
      = (Goroutine.returned (GetFastCompass cfg mri name).1, (GetFastCompass cfg mri name).2) := by
  cases h : mri.metricsMap.Load name.HashKey with
  | some e => simp [stepGoroutine, h, GetFastCompass_fast cfg mri name e h]
  | none =>
    rw [GetFastCompass_slow cfg mri name h]
    by_cases hc : mri.metricsCount < mri.maxMetricCount <;>
      simp [stepGoroutine, h, hc, SyncMap.LoadOrStore, slowPathInstrument, newFastCompass,
        GetNopFastCompass, AddInt32]

theorem Dyn.Load_toDynPairs (k : String) (l : List (String × MetricNameToMetricEntry)) :
    Dyn.Load (Value.string k) (toDynPairs l)
      = (lookupIn k l).map (fun e => Value.entry e.toDyn) := by
  induction l with
  | nil => rfl
  | cons p t ih =>
    obtain ⟨k2, e⟩ := p
    by_cases h : k2 = k
    · simp [toDynPairs, Dyn.Load, lookupIn, h]
    · simp only [toDynPairs] at ih
      simp [toDynPairs, Dyn.Load, lookupIn, h, ih]

theorem Dyn.WellTyped_toDynPairs (l : List (String × MetricNameToMetricEntry)) :
    Dyn.WellTyped (toDynPairs l) := by
  intro p hp
  obtain ⟨q, _, rfl⟩ := List.mem_map.mp hp
  exact ⟨q.1, q.2.MetricName, q.2.Metric, rfl⟩

theorem Dyn.GetFastCompass_toDyn (cfg : Int → Duration) (mri : MetricRegistry.MetricRegistryImpl)
    (name : MetricName) :
    Dyn.GetFastCompass cfg mri.toDyn name
      = some ((MetricRegistry.GetFastCompass cfg mri name).1,
          (MetricRegistry.GetFastCompass cfg mri name).2.toDyn) := by
  have hload : Dyn.Load (Value.string name.HashKey) mri.toDyn.metricsMap
      = (mri.metricsMap.Load name.HashKey).map (fun e => Value.entry e.toDyn) :=
    Dyn.Load_toDynPairs name.HashKey mri.metricsMap.entries
  cases h : mri.metricsMap.Load name.HashKey with
  | some e =>
    rw [h] at hload
    rw [GetFastCompass_fast cfg mri name e h]
    simp only [Dyn.GetFastCompass, hload, Option.map_some']
    rfl
  | none =>
    rw [h] at hload
    rw [GetFastCompass_slow cfg mri name h]
    simp only [Dyn.GetFastCompass, Dyn.LoadOrStore, hload, Option.map_none']
    by_cases hc : mri.metricsCount < mri.maxMetricCount <;>
      simp [MetricRegistryImpl.toDyn, Value.assertEntry, Metric.assertFastCompass, hc,
        slowPathInstrument, newFastCompass, GetNopFastCompass, AddInt32,
        SyncMap.store_entries_of_absent _ _ _ h, toDynPairs, MetricNameToMetricEntry.toDyn]

theorem Dyn.Range_GetMetrics (l : List (String × MetricNameToMetricEntry)) :
    ∀ acc : GoMap,
      Dyn.Range
          (fun (result : List (String × DynEntry)) key value =>
            match key.assertString, value.assertEntry with
            | some k, some e => some (Dyn.set result k e, true)
            | _, _ => none)
          (acc.entries.map (fun p => (p.1, p.2.toDyn))) (toDynPairs l)
        = some ((rangeLoop (fun (result : GoMap) key value => (result.set key value, true))
            acc l).entries.map (fun p => (p.1, p.2.toDyn))) := by
  induction l with
  | nil => intro acc; rfl
  | cons p t ih =>
    intro acc
    obtain ⟨k, e⟩ := p
    have hset : Dyn.set (acc.entries.map (fun p => (p.1, p.2.toDyn))) k e.toDyn
        = (acc.set k e).entries.map (fun p => (p.1, p.2.toDyn)) := by
      simp [Dyn.set, GoMap.set, List.filter_map, Function.comp_def]
    simp only [toDynPairs, List.map_cons, Dyn.Range, Value.assertString, Value.assertEntry,
      rangeLoop, if_true]
    rw [hset]
    exact ih (acc.set k e)

theorem Dyn.GetMetrics_toDyn (mri : MetricRegistry.MetricRegistryImpl) :
    Dyn.GetMetrics mri.toDyn
      = some ((MetricRegistry.GetMetrics mri).1.entries.map (fun p => (p.1, p.2.toDyn)),
          mri.toDyn) := by
  have h := Dyn.Range_GetMetrics mri.metricsMap.entries (GoMap.make mri.metricsCount)
  simp only [GoMap.make, List.map_nil] at h
  simp only [Dyn.GetMetrics, MetricRegistryImpl.toDyn, h]
  rfl

theorem Dyn.Range_LastUpdateTime (ts : Metric → Int)
    (l : List (String × MetricNameToMetricEntry)) :
    ∀ init : Int,
      Dyn.Range
          (fun (result : Int) _ value =>
            match value.assertEntry with
            | some entry =>
              some (if result < ts entry.Metric then ts entry.Metric else result, true)
            | none => none)
          init (toDynPairs l)
        = some (rangeLoop
            (fun (result : Int) (_ : String) (entry : MetricNameToMetricEntry) =>
              (if result < ts (Metric.fastCompass entry.Metric)
                then ts (Metric.fastCompass entry.Metric) else result, true))
            init l) := by
  induction l with
  | nil => intro init; rfl
  | cons p t ih =>
    intro init
    obtain ⟨k, e⟩ := p
    simp only [toDynPairs, List.map_cons, Dyn.Range, Value.assertEntry, rangeLoop, if_true,
      MetricNameToMetricEntry.toDyn]
    exact ih _

theorem Dyn.LastUpdateTime_toDyn (ts : Metric → Int)
    (mri : MetricRegistry.MetricRegistryImpl) :
    Dyn.LastUpdateTime ts mri.toDyn
      = some ((MetricRegistry.LastUpdateTime (fun fc => ts (Metric.fastCompass fc)) mri).1,
          mri.toDyn) := by
  have h := Dyn.Range_LastUpdateTime ts mri.metricsMap.entries 0
  simp only [Dyn.LastUpdateTime, MetricRegistryImpl.toDyn, h]
  rfl

theorem Dyn.exec_toDyn (cfg : Int → Duration) (mri : MetricRegistry.MetricRegistryImpl)
    (c : Dyn.Call) :
    c.exec cfg mri.toDyn = some (c.toTyped.exec cfg mri).toDyn := by
  cases c with
  | GetFastCompass name =>
    simp [Dyn.Call.exec, Dyn.GetFastCompass_toDyn, Dyn.Call.toTyped, MetricRegistry.Call.exec]
  | GetMetrics =>
    simp [Dyn.Call.exec, Dyn.GetMetrics_toDyn, Dyn.Call.toTyped, MetricRegistry.Call.exec,
      MetricRegistry.GetMetrics]
  | LastUpdateTime ts =>
    simp [Dyn.Call.exec, Dyn.LastUpdateTime_toDyn, Dyn.Call.toTyped, MetricRegistry.Call.exec,
      MetricRegistry.LastUpdateTime]

theorem Dyn.runCalls_toDyn (cfg : Int → Duration) (calls : List Dyn.Call) :
    ∀ mri : MetricRegistry.MetricRegistryImpl,
      Dyn.runCalls cfg mri.toDyn calls
        = some (MetricRegistry.runCalls cfg mri (calls.map Dyn.Call.toTyped)).toDyn := by
  induction calls with
  | nil => intro mri; rfl
  | cons c rest ih =>
    intro mri
    simp only [Dyn.runCalls, Dyn.exec_toDyn, List.map_cons, MetricRegistry.runCalls]
    exact ih _

/-- C16: no call panics on a reachable state. Every sequence of calls on
`NewMetricRegistry cap` runs to the end without a failed type assertion; in the
state it reaches every key of the map is a `string` and every value an entry whose
`Metric` is a `FastCompass`; and on that state `GetFastCompass` (for every name),
`GetMetrics` and `LastUpdateTime` (for all timestamps) return. The assertions are
not idle: on a map holding a pair of another type `GetMetrics` panics. -/
theorem C16_no_panic_on_reachable_states (cfg : Int → Duration) (cap : Int)
    (calls : List Dyn.Call) :
    (∃ mri : Dyn.MetricRegistryImpl,
      Dyn.runCalls cfg (Dyn.NewMetricRegistry cap) calls = some mri ∧
      Dyn.WellTyped mri.metricsMap ∧
      (∀ name, (Dyn.GetFastCompass cfg mri name).isSome = true) ∧
      (Dyn.GetMetrics mri).isSome = true ∧
      (∀ ts, (Dyn.LastUpdateTime ts mri).isSome = true)) ∧
    Dyn.GetMetrics ⟨[(Value.other 0, Value.other 0)], 1, cap, 0⟩ = none ∧
    Dyn.GetFastCompass cfg
      ⟨[(Value.string "a", Value.entry ⟨⟨"a", 0⟩, Metric.otherMetric 0⟩)], 1, cap, 0⟩ ⟨"a", 0⟩
      = none := by
  refine ⟨⟨(MetricRegistry.runCalls cfg (MetricRegistry.NewMetricRegistry cap)
      (calls.map Dyn.Call.toTyped)).toDyn, ?_, ?_, ?_, ?_, ?_⟩, rfl, rfl⟩
  · exact Dyn.runCalls_toDyn cfg calls (MetricRegistry.NewMetricRegistry cap)
  · exact Dyn.WellTyped_toDynPairs _
  · intro name
    rw [Dyn.GetFastCompass_toDyn]
    rfl
  · rw [Dyn.GetMetrics_toDyn]
    rfl
  · intro ts
    rw [Dyn.LastUpdateTime_toDyn]
    rfl

end MetricRegistry
